import Mathlib

/-!
Verification of the Keyboard-Configurator layout pipeline.

The Rust sources under `src/` are embedded shallowly: structs become Lean
structures, `u8`/`usize` become `Nat` (real values fit in the machine range,
noted where a proof uses it), `isize` becomes `Int`, `f32` visual data becomes
`Rat` (no claim computes with it), and `Vec` becomes `List`.  Modules that are
declared by the crate but whose files are not part of the source drop
(`models::layer`, `models::layout`, `models::category`, `models::rgb`,
`models::visual_layout_mapping`, `tui::clipboard`, `firmware`, `keycode_db`)
are modelled from the specification; their doc comments say so explicitly.
-/

namespace KbCfg

/-- Modelled from the spec: logical grid position (`models::layer::Position`,
missing from the sources; fields `row, col : u8`, embedded as `Nat`; real
values are below 256). -/
structure Position where
  row : Nat
  col : Nat
deriving DecidableEq

/-- Modelled from the spec: RGB color (`models::rgb::RgbColor`, missing from
the sources; three `u8` channels). -/
structure RgbColor where
  r : Nat
  g : Nat
  b : Nat
deriving DecidableEq

/-- One physical key, from `src/models/keyboard_geometry.rs`
(`struct KeyGeometry`).  The `f32` visual fields are embedded as `Rat`. -/
structure KeyGeometry where
  matrix_position : Nat × Nat
  led_index : Nat
  layout_index : Nat
  visual_x : Rat
  visual_y : Rat
  width : Rat
  height : Rat
  rotation : Rat
deriving DecidableEq

/-- `KeyGeometry::new` from `src/models/keyboard_geometry.rs`: defaults
`layout_index` to `led_index`, width and height to `1.0`, rotation to `0.0`. -/
def KeyGeometry.new (matrix_position : Nat × Nat) (led_index : Nat)
    (visual_x visual_y : Rat) : KeyGeometry :=
  { matrix_position := matrix_position
    led_index := led_index
    layout_index := led_index
    visual_x := visual_x
    visual_y := visual_y
    width := 1
    height := 1
    rotation := 0 }

/-- `KeyGeometry::with_width`. -/
def KeyGeometry.with_width (k : KeyGeometry) (w : Rat) : KeyGeometry :=
  { k with width := w }

/-- `KeyGeometry::with_height`. -/
def KeyGeometry.with_height (k : KeyGeometry) (h : Rat) : KeyGeometry :=
  { k with height := h }

/-- `KeyGeometry::with_rotation`. -/
def KeyGeometry.with_rotation (k : KeyGeometry) (r : Rat) : KeyGeometry :=
  { k with rotation := r }

/-- The keyboard+variant geometry, from `src/models/keyboard_geometry.rs`
(`struct KeyboardGeometry`). -/
structure KeyboardGeometry where
  keyboard_name : String
  layout_name : String
  matrix_rows : Nat
  matrix_cols : Nat
  keys : List KeyGeometry
  encoder_count : Nat
deriving DecidableEq

/-- `KeyboardGeometry::new`. -/
def KeyboardGeometry.new (keyboard_name layout_name : String)
    (matrix_rows matrix_cols : Nat) : KeyboardGeometry :=
  { keyboard_name := keyboard_name
    layout_name := layout_name
    matrix_rows := matrix_rows
    matrix_cols := matrix_cols
    keys := []
    encoder_count := 0 }

/-- `KeyboardGeometry::add_key`: pushes the key, with no uniqueness check. -/
def KeyboardGeometry.add_key (g : KeyboardGeometry) (k : KeyGeometry) :
    KeyboardGeometry :=
  { g with keys := g.keys ++ [k] }

/-- `KeyboardGeometry::key_count`. -/
def KeyboardGeometry.key_count (g : KeyboardGeometry) : Nat :=
  g.keys.length

/-- `KeyboardGeometry::get_key_by_led`. -/
def KeyboardGeometry.get_key_by_led (g : KeyboardGeometry) (led : Nat) :
    Option KeyGeometry :=
  g.keys.find? (fun k => decide (k.led_index = led))

/-- `KeyboardGeometry::get_key_by_matrix`. -/
def KeyboardGeometry.get_key_by_matrix (g : KeyboardGeometry) (p : Nat × Nat) :
    Option KeyGeometry :=
  g.keys.find? (fun k => decide (k.matrix_position = p))

/-- Spec invariant (§3): matrix positions are pairwise distinct within a
geometry. -/
def MatrixUnique (g : KeyboardGeometry) : Prop :=
  (g.keys.map (fun k => k.matrix_position)).Nodup

/-- Spec invariant (§3): LED indices are pairwise distinct within a
geometry. -/
def LedUnique (g : KeyboardGeometry) : Prop :=
  (g.keys.map (fun k => k.led_index)).Nodup

instance (g : KeyboardGeometry) : Decidable (MatrixUnique g) := by
  unfold MatrixUnique; infer_instance

instance (g : KeyboardGeometry) : Decidable (LedUnique g) := by
  unfold LedUnique; infer_instance

/-- A two-key geometry used to exhibit that `add_key` can break uniqueness. -/
def dupGeometry : KeyboardGeometry :=
  (KeyboardGeometry.new "test" "LAYOUT" 4 12).add_key
    (KeyGeometry.new (0, 0) 0 0 0)

/-- Modelled from the spec: tap-dance action (`TapDanceAction`, missing from
the sources together with `models::layout`); name, required single-tap code,
optional double-tap and hold codes (§3). -/
structure TapDanceAction where
  name : String
  single_tap : String
  double_tap : Option String
  hold : Option String
deriving DecidableEq

/-- Modelled from the spec: `TapDanceAction::new` as used by the tests in
`src/export/tap_dance_docs.rs`. -/
def TapDanceAction.new (name single_tap : String) : TapDanceAction :=
  { name := name, single_tap := single_tap, double_tap := none, hold := none }

/-- Modelled from the spec: `TapDanceAction::with_double_tap`. -/
def TapDanceAction.with_double_tap (td : TapDanceAction) (c : String) :
    TapDanceAction :=
  { td with double_tap := some c }

/-- Modelled from the spec: `TapDanceAction::with_hold`. -/
def TapDanceAction.with_hold (td : TapDanceAction) (c : String) :
    TapDanceAction :=
  { td with hold := some c }

/-- The tap-dance kind derivation from `src/cli/inspect.rs`
(`InspectArgs::execute`, the `td_type` field of `TapDanceInfo`): a hold code
makes it `three_way`, otherwise a double-tap code makes it `two_way`,
otherwise it is `single`. -/
def tdType (td : TapDanceAction) : String :=
  if td.hold.isSome then "three_way"
  else if td.double_tap.isSome then "two_way"
  else "single"

theorem nodup_concat_of_not_mem {α : Type} [DecidableEq α] {l : List α} {a : α}
    (h : l.Nodup) (ha : a ∉ l) : (l ++ [a]).Nodup := by
  simpa [List.nodup_append] using ⟨h, ha⟩

/-- C4: a `KeyGeometry` built by `KeyGeometry::new` (the constructor every
key goes through when the hardware description supplies no distinct
keymap-array ordering) has `layout_index` equal to `led_index`, and the
builder-style modifiers `with_width` / `with_height` / `with_rotation`
preserve that equality. -/
theorem C4_layout_index_defaults_to_led_index :
    ∀ (mp : Nat × Nat) (led : Nat) (x y w h r : Rat),
      (KeyGeometry.new mp led x y).layout_index =
        (KeyGeometry.new mp led x y).led_index ∧
      ((((KeyGeometry.new mp led x y).with_width w).with_height h).with_rotation
          r).layout_index =
        ((((KeyGeometry.new mp led x y).with_width w).with_height
            h).with_rotation r).led_index := by
  intro mp led x y w h r
  exact ⟨rfl, rfl⟩

/-- C5 counterexample: `KeyboardGeometry::add_key` appends unconditionally, so
adding a key whose matrix position and LED index already occur produces a
geometry in which neither the matrix position nor the LED index is unique:
the claimed invariant is not preserved by `add_key`. -/
theorem C5_add_key_breaks_uniqueness_counterexample :
    MatrixUnique dupGeometry ∧ LedUnique dupGeometry ∧
      ¬ MatrixUnique (dupGeometry.add_key (KeyGeometry.new (0, 0) 0 1 0)) ∧
      ¬ LedUnique (dupGeometry.add_key (KeyGeometry.new (0, 0) 0 1 0)) := by
  refine ⟨by decide, by decide, ?_, ?_⟩ <;> decide

/-- C5 (amended): matrix-position and LED-index uniqueness is an invariant of
geometries whose keys were added with fresh matrix positions and LED indices;
`add_key` itself performs no check, so it preserves uniqueness exactly when
the added key's matrix position and LED index do not already occur. -/
theorem C5_add_key_preserves_uniqueness_when_fresh :
    ∀ (g : KeyboardGeometry) (k : KeyGeometry),
      MatrixUnique g →
      k.matrix_position ∉ g.keys.map (fun x => x.matrix_position) →
      LedUnique g →
      k.led_index ∉ g.keys.map (fun x => x.led_index) →
      MatrixUnique (g.add_key k) ∧ LedUnique (g.add_key k) := by
  intro g k hm hmp hl hli
  constructor
  · unfold MatrixUnique KeyboardGeometry.add_key
    simpa [List.map_append] using nodup_concat_of_not_mem hm hmp
  · unfold LedUnique KeyboardGeometry.add_key
    simpa [List.map_append] using nodup_concat_of_not_mem hl hli

/-- C5 witness: the amended preservation theorem applied to a concrete
geometry and a fresh key. -/
theorem C5_add_key_preserves_uniqueness_witness :
    MatrixUnique (dupGeometry.add_key (KeyGeometry.new (0, 1) 1 1 0)) ∧
      LedUnique (dupGeometry.add_key (KeyGeometry.new (0, 1) 1 1 0)) :=
  C5_add_key_preserves_uniqueness_when_fresh dupGeometry
    (KeyGeometry.new (0, 1) 1 1 0) (by decide) (by decide) (by decide)
    (by decide)

/-- C9: the tap-dance kind emitted by the inspect command is a function of
which optional fields are present (it is derived, not stored): it is
`three_way` exactly when a hold code is present, `two_way` exactly when there
is no hold code but a double-tap code, and `single` exactly when neither
optional code is present. -/
theorem C9_tap_dance_kind_derived :
    ∀ td : TapDanceAction,
      (tdType td = "three_way" ↔ td.hold.isSome = true) ∧
      (tdType td = "two_way" ↔ td.hold = none ∧ td.double_tap.isSome = true) ∧
      (tdType td = "single" ↔ td.hold = none ∧ td.double_tap = none) := by
  intro td
  rcases htd : td.hold with _ | h <;> rcases hdt : td.double_tap with _ | d <;>
    simp [tdType, htd, hdt]

/-- Modelled from the spec: one key assignment (`models::layer::KeyDefinition`,
missing from the sources): logical position, keycode string, optional per-key
color override, optional category id (§3). -/
structure KeyDefinition where
  position : Position
  keycode : String
  color_override : Option RgbColor
  category_id : Option String
deriving DecidableEq

/-- Modelled from the spec: a layer (`models::layer::Layer`, missing from the
sources): number, name, default color, optional category id, ordered key
collection (§3). -/
structure Layer where
  number : Nat
  name : String
  default_color : RgbColor
  category_id : Option String
  keys : List KeyDefinition
deriving DecidableEq

/-- Modelled from the spec: a category (`models::category::Category`, missing
from the sources): id, display name, RGB color (§3). -/
structure Category where
  id : String
  name : String
  color : RgbColor
deriving DecidableEq

/-- Modelled from the spec: the user's design (`models::layout::Layout`,
missing from the sources).  Only the fields the verified claims read are
embedded: ordered layers, categories and tap dances (§3); metadata and
RGB/idle settings are omitted. -/
structure Layout where
  layers : List Layer
  categories : List Category
  tap_dances : List TapDanceAction
deriving DecidableEq

/-- The category-deletion sweep from `src/tui/mod.rs`
(`handle_category_manager_input`, `ManagerMode::ConfirmingDelete`, key `y`):
`categories.retain(|c| c.id != category_id)`, then for every layer clear a
matching layer `category_id` and a matching `category_id` on every key. -/
def deleteCategory (L : Layout) (cid : String) : Layout :=
  { L with
    categories := L.categories.filter (fun c => decide (c.id ≠ cid))
    layers := L.layers.map (fun ly =>
      { ly with
        category_id :=
          if ly.category_id = some cid then none else ly.category_id
        keys := ly.keys.map (fun k =>
          { k with
            category_id :=
              if k.category_id = some cid then none else k.category_id }) }) }

/-- C8: deleting a category removes exactly the categories whose id equals the
deleted id (under the unique-id invariant, exactly that category), clears
every matching layer and key reference across all layers, and leaves every
other category, every other key field (position, keycode, color override) and
every non-matching reference unchanged; the number and order of layers and
keys is preserved. -/
theorem C8_delete_category_sweeps_and_clears :
    ∀ (L : Layout) (cid : String),
      (∀ c : Category,
        c ∈ (deleteCategory L cid).categories ↔
          c ∈ L.categories ∧ c.id ≠ cid) ∧
      (deleteCategory L cid).categories.length +
          L.categories.countP (fun c => decide (c.id = cid)) =
        L.categories.length ∧
      (deleteCategory L cid).tap_dances = L.tap_dances ∧
      (deleteCategory L cid).layers.length = L.layers.length ∧
      (∀ i : Nat,
        ((deleteCategory L cid).layers[i]?).map (fun ly => ly.number) =
          (L.layers[i]?).map (fun ly => ly.number) ∧
        ((deleteCategory L cid).layers[i]?).map (fun ly => ly.name) =
          (L.layers[i]?).map (fun ly => ly.name) ∧
        ((deleteCategory L cid).layers[i]?).map
            (fun ly => ly.default_color) =
          (L.layers[i]?).map (fun ly => ly.default_color) ∧
        ((deleteCategory L cid).layers[i]?).map (fun ly => ly.category_id) =
          (L.layers[i]?).map (fun ly =>
            if ly.category_id = some cid then none else ly.category_id) ∧
        ((deleteCategory L cid).layers[i]?).map
            (fun ly => ly.keys.length) =
          (L.layers[i]?).map (fun ly => ly.keys.length) ∧
        ∀ j : Nat,
          ((deleteCategory L cid).layers[i]?).map (fun ly =>
              (ly.keys[j]?).map (fun k =>
                (k.position, k.keycode, k.color_override))) =
            (L.layers[i]?).map (fun ly =>
              (ly.keys[j]?).map (fun k =>
                (k.position, k.keycode, k.color_override))) ∧
          ((deleteCategory L cid).layers[i]?).map (fun ly =>
              (ly.keys[j]?).map (fun k => k.category_id)) =
            (L.layers[i]?).map (fun ly =>
              (ly.keys[j]?).map (fun k =>
                if k.category_id = some cid then none
                else k.category_id))) := by
  intro L cid
  refine ⟨?_, ?_, rfl, by simp [deleteCategory], ?_⟩
  · intro c
    simp [deleteCategory, List.mem_filter]
  · have hsplit :
        ∀ cs : List Category,
          (cs.filter (fun c => decide (c.id ≠ cid))).length +
              cs.countP (fun c => decide (c.id = cid)) =
            cs.length := by
      intro cs
      induction cs with
      | nil => simp
      | cons c cs ih =>
        by_cases h : c.id = cid <;>
          simp [List.filter_cons, List.countP_cons, h] at ih ⊢ <;> omega
    simpa [deleteCategory] using hsplit L.categories
  · intro i
    rcases hL : L.layers[i]? with _ | ly
    · simp [deleteCategory, List.getElem?_map, hL]
    · refine ⟨?_, ?_, ?_, ?_, ?_, ?_⟩ <;>
        simp [deleteCategory, List.getElem?_map, hL]
      intro j
      rcases hK : ly.keys[j]? with _ | k <;>
        simp [List.getElem?_map, hK]

/-- Modelled from the spec: one keycode reference entry (`keycode_db`, missing
from the sources): display name, category, description (§6). -/
structure KeycodeDef where
  name : String
  category : String
  description : String

/-- Modelled from the spec: the keycode reference
(`keycode_db::KeycodeDb::get`, missing from the sources):
`lookup(code) -> Option<Definition>` (§6). -/
structure KeycodeDb where
  get : String → Option KeycodeDef

/-- `format_keycode` from `src/export/tap_dance_docs.rs`. -/
def format_keycode (keycode : String) (db : KeycodeDb) : String :=
  match db.get keycode with
  | some d => keycode ++ " (" ++ d.name ++ ")"
  | none => keycode

/-- Sequential accumulation of written fragments (the `String` built by the
successive `write!` calls in `generate_tap_dance_docs`). -/
def concatStrings : List String → String
  | [] => ""
  | s :: t => s ++ concatStrings t

/-- Rust `Iterator::enumerate`, starting at `n`. -/
def enumFrom {α : Type} : Nat → List α → List (Nat × α)
  | _, [] => []
  | n, t :: ts => (n, t) :: enumFrom (n + 1) ts

/-- The text written for one tap dance by `generate_tap_dance_docs`
(`src/export/tap_dance_docs.rs`, the body of the `enumerate` loop). -/
def tdBlock (idx : Nat) (td : TapDanceAction) (db : KeycodeDb) : String :=
  "### TD(" ++ toString idx ++ "): " ++ td.name ++ "\n" ++
    "- **Single Tap:** " ++ format_keycode td.single_tap db ++ "\n" ++
    (match td.double_tap with
     | some d => "- **Double Tap:** " ++ format_keycode d db ++ "\n"
     | none => "") ++
    (match td.hold with
     | some h => "- **Hold:** " ++ format_keycode h db ++ "\n"
     | none => "") ++
    "\n"

/-- The tap-dance definition section: one block per action, in collection
order, indexed by `enumerate`. -/
def tdSection (tds : List TapDanceAction) (db : KeycodeDb) : String :=
  concatStrings ((enumFrom 0 tds).map (fun p => tdBlock p.1 p.2 db))

/-- The `TD()` key-reference scan of `generate_tap_dance_docs`: all keys over
all layers whose keycode starts with `TD(` and ends with `)`. -/
def keyReferences (layout : Layout) : List (Nat × Nat × Nat × String) :=
  (layout.layers.map (fun ly =>
    ly.keys.filterMap (fun k =>
      if k.keycode.startsWith "TD(" && k.keycode.endsWith ")" then
        some (ly.number, k.position.row, k.position.col, k.keycode)
      else none))).flatten

/-- One line of the `Keys Using Tap Dance` section. -/
def keyRefLine (r : Nat × Nat × Nat × String) : String :=
  "- Layer " ++ toString r.1 ++ ", Position (" ++ toString r.2.1 ++ "," ++
    toString r.2.2.1 ++ "): " ++ r.2.2.2 ++ "\n"

/-- `generate_tap_dance_docs` from `src/export/tap_dance_docs.rs`. -/
def generate_tap_dance_docs (layout : Layout) (db : KeycodeDb) : String :=
  if layout.tap_dances.isEmpty then ""
  else
    "## Tap Dance Actions\n\n" ++ tdSection layout.tap_dances db ++
      (if (keyReferences layout).isEmpty then ""
       else
         "**Keys Using Tap Dance:**\n" ++
           concatStrings ((keyReferences layout).map keyRefLine))

theorem data_infix_concat_of_mem (l : List String) (s : String) (h : s ∈ l) :
    s.data <:+: (concatStrings l).data := by
  induction l with
  | nil => cases h
  | cons a t ih =>
    rcases List.mem_cons.mp h with rfl | hmem
    · exact ⟨[], (concatStrings t).data, by simp [concatStrings]⟩
    · rcases ih hmem with ⟨x, y, hxy⟩
      exact ⟨a.data ++ x, y, by simp [concatStrings, ← hxy]⟩

theorem mem_enumFrom_get {α : Type} (ts : List α) :
    ∀ (n i : Nat) (h : i < ts.length), (n + i, ts.get ⟨i, h⟩) ∈ enumFrom n ts := by
  induction ts with
  | nil => intro n i h; cases h
  | cons a t ih =>
    intro n i h
    cases i with
    | zero => simp [enumFrom]
    | succ j =>
      have := ih (n + 1) j (Nat.lt_of_succ_lt_succ h)
      simp only [enumFrom, List.get]
      right
      simpa [Nat.add_comm, Nat.add_assoc, Nat.add_left_comm] using this

/-- C3: every tap-dance action is emitted with the index equal to its position
in `layout.tap_dances`: the block written for the `i`-th action is
`### TD(i): name` (with its codes) and appears in the generated text; and the
emitted tap-dance section is a function of the tap-dance collection alone, so
the indices are unchanged across regenerations whenever the collection is
unchanged. -/
theorem C3_tap_dance_emitted_with_list_index :
    ∀ (layout : Layout) (db : KeycodeDb)
      (i : Fin layout.tap_dances.length),
      (tdBlock i.1 (layout.tap_dances.get i) db).data <:+:
        (generate_tap_dance_docs layout db).data ∧
      ∀ layout2 : Layout, layout.tap_dances = layout2.tap_dances →
        tdSection layout.tap_dances db = tdSection layout2.tap_dances db := by
  intro layout db i
  constructor
  · have hE : layout.tap_dances.isEmpty = false := by
      cases hC : layout.tap_dances with
      | nil =>
        have hlen : layout.tap_dances.length = 0 := by rw [hC]; rfl
        have h2 := i.2
        exfalso
        omega
      | cons a t => rfl
    have h0 := mem_enumFrom_get layout.tap_dances 0 i.1 i.2
    rw [Nat.zero_add] at h0
    have hmem :
        tdBlock i.1 (layout.tap_dances.get i) db ∈
          (enumFrom 0 layout.tap_dances).map (fun p => tdBlock p.1 p.2 db) :=
      List.mem_map.mpr ⟨(i.1, layout.tap_dances.get i), h0, rfl⟩
    have hsec :
        (tdBlock i.1 (layout.tap_dances.get i) db).data <:+:
          (tdSection layout.tap_dances db).data :=
      data_infix_concat_of_mem _ _ hmem
    have hout :
        (tdSection layout.tap_dances db).data <:+:
          (generate_tap_dance_docs layout db).data := by
      refine ⟨("## Tap Dance Actions\n\n" : String).data,
        (if (keyReferences layout).isEmpty then ""
         else
           "**Keys Using Tap Dance:**\n" ++
             concatStrings ((keyReferences layout).map keyRefLine) :
          String).data, ?_⟩
      simp only [generate_tap_dance_docs, hE, Bool.false_eq_true, if_false,
        String.data_append, List.append_assoc]
    exact hsec.trans hout
  · intro layout2 h
    rw [h]

/-- A one-tap-dance layout for the C3 witness. -/
def layoutC3 : Layout :=
  { layers := [], categories := [],
    tap_dances := [TapDanceAction.new "dance" "KC_A"] }

/-- An empty keycode reference used by witnesses. -/
def emptyDb : KeycodeDb :=
  { get := fun _ => none }

/-- C3 witness: the theorem applied at a concrete layout and index 0, both
conjuncts instantiated. -/
theorem C3_tap_dance_emitted_witness :
    ((tdBlock 0 (TapDanceAction.new "dance" "KC_A") emptyDb).data <:+:
      (generate_tap_dance_docs layoutC3 emptyDb).data) ∧
    tdSection layoutC3.tap_dances emptyDb =
      tdSection layoutC3.tap_dances emptyDb :=
  ⟨(C3_tap_dance_emitted_with_list_index layoutC3 emptyDb
      ⟨0, by decide⟩).1,
    (C3_tap_dance_emitted_with_list_index layoutC3 emptyDb
      ⟨0, by decide⟩).2 layoutC3 rfl⟩

/-- Modelled from the spec: message severity of a validation entry
(`firmware::FirmwareValidator`, missing from the sources): each message is
tagged `error` or `warning` (§4.3). -/
inductive Severity where
  | sevError
  | sevWarning
deriving DecidableEq

/-- Modelled from the spec: one validation message with optional location
(§4.3). -/
structure ValidationMessage where
  severity : Severity
  text : String
  layer : Option Nat
  position : Option Position
deriving DecidableEq

/-- Modelled from the spec: the validation report, an ordered list of
messages (§4.3). -/
structure ValidationReport where
  messages : List ValidationMessage
deriving DecidableEq

/-- Modelled from the spec: `ValidationReport::is_valid`
(`firmware`, missing from the sources): the report is valid when no message
has `error` severity (§4.3). -/
def ValidationReport.is_valid (r : ValidationReport) : Bool :=
  r.messages.all (fun m => decide (m.severity ≠ Severity.sevError))

/-- Number of `error`-severity messages in a report. -/
def ValidationReport.error_count (r : ValidationReport) : Nat :=
  (r.messages.filter (fun m => decide (m.severity = Severity.sevError))).length

/-- Outcome of a firmware-generation attempt as observed by the caller. -/
inductive GenOutcome where
  | blocked (msg : String)
  | genFailed (msg : String)
  | generated (keymap_path vial_path : String)
deriving DecidableEq

/-- `handle_firmware_generation` from `src/tui/mod.rs`, after the validator
has produced `report`: when `!report.is_valid()` it reports the validation
failure and returns without generating; otherwise it invokes the generator,
whose result (`genResult`, success paths or failure text) it forwards.  The
generator itself is missing from the sources, so its run is passed in as
data. -/
def handle_firmware_generation (report : ValidationReport)
    (genResult : Except String (String × String)) : GenOutcome :=
  if !report.is_valid then
    GenOutcome.blocked "Validation failed"
  else
    match genResult with
    | Except.ok (keymap_path, vial_path) =>
        GenOutcome.generated keymap_path vial_path
    | Except.error e => GenOutcome.genFailed e

/-- Whether the handler went on to run the generator (it was not blocked by
validation). -/
def generationProceeds : GenOutcome → Bool
  | GenOutcome.blocked _ => false
  | GenOutcome.genFailed _ => true
  | GenOutcome.generated _ _ => true

/-- C1: a validation report is valid exactly when it contains zero
`error`-severity messages; appending a warning never changes validity (so
warnings never block generation); and the firmware-generation handler
proceeds past validation exactly when the report is valid. -/
theorem C1_generation_gated_on_error_free_report :
    ∀ (report : ValidationReport)
      (genResult : Except String (String × String)),
      (report.is_valid = true ↔ report.error_count = 0) ∧
      (∀ (s : String) (lo : Option Nat) (po : Option Position),
        ValidationReport.is_valid
            ⟨report.messages ++ [⟨Severity.sevWarning, s, lo, po⟩]⟩ =
          report.is_valid) ∧
      generationProceeds (handle_firmware_generation report genResult) =
        report.is_valid := by
  intro report genResult
  refine ⟨?_, ?_, ?_⟩
  · unfold ValidationReport.is_valid ValidationReport.error_count
    induction report.messages with
    | nil => simp
    | cons m ms ih =>
      by_cases h : m.severity = Severity.sevError <;>
        simp [List.all_cons, List.filter_cons, h, ih]
  · intro s lo po
    unfold ValidationReport.is_valid
    simp [List.all_append]
  · unfold handle_firmware_generation
    cases h : report.is_valid with
    | false => simp [h, generationProceeds]
    | true =>
      cases genResult with
      | ok p => cases p; simp [h, generationProceeds]
      | error e => simp [h, generationProceeds]

/-- Modelled from the spec: the derived bidirectional table between logical
grid positions and physical keys (`models::visual_layout_mapping`, missing
from the sources); each entry resolves a logical position to the
`layout_index` of one `KeyGeometry` (§3, §4.2). -/
structure VisualLayoutMapping where
  table : List (Position × Nat)
deriving DecidableEq

/-- Modelled from the spec: `VisualLayoutMapping::is_valid_position`: a
position is valid when it resolves to a physical key (§4.2). -/
def VisualLayoutMapping.is_valid_position (m : VisualLayoutMapping)
    (p : Position) : Bool :=
  (m.table.find? (fun e => decide (e.1 = p))).isSome

/-- Modelled from the spec: clipboard payload for one key
(`tui::clipboard::ClipboardContent`, missing from the sources), as read and
written by `handle_paste_key` in
`src/tui/handlers/action_handlers/key_ops.rs`. -/
structure ClipboardContent where
  keycode : String
  color_override : Option RgbColor
  category_id : Option String
deriving DecidableEq

/-- Modelled from the spec: multi-key clipboard content: an anchor position
and the captured keys (§4.5). -/
structure MultiContent where
  anchor : Position
  keys : List (Position × ClipboardContent)
deriving DecidableEq

/-- Modelled from the spec: the single-level undo snapshot stored by
`save_undo` (§4.5). -/
structure UndoInfo where
  layer_index : Nat
  original_keys : List (Position × ClipboardContent)
  description : String
deriving DecidableEq

/-- Modelled from the spec: the clipboard state (`tui::clipboard`, missing
from the sources), exposing the accessors `handle_paste_key` uses:
single/multi content, cut sources, and the undo slot (§4.5). -/
structure Clipboard where
  single : Option ClipboardContent
  singleCutSource : Option (Nat × Position)
  multi : Option MultiContent
  multiCutSources : List (Nat × Position)
  undo : Option UndoInfo
deriving DecidableEq

/-- Modelled from the spec: `Clipboard::has_content`. -/
def Clipboard.has_content (c : Clipboard) : Bool :=
  c.multi.isSome || c.single.isSome

/-- Modelled from the spec: `Clipboard::is_multi`. -/
def Clipboard.is_multi (c : Clipboard) : Bool :=
  c.multi.isSome

/-- Modelled from the spec: `Clipboard::clear_cut_source`. -/
def Clipboard.clear_cut_source (c : Clipboard) : Clipboard :=
  { c with singleCutSource := none, multiCutSources := [] }

/-- Modelled from the spec: `Clipboard::save_undo` stores the one-level undo
snapshot (§4.5). -/
def Clipboard.save_undo (c : Clipboard) (layer_index : Nat)
    (original_keys : List (Position × ClipboardContent))
    (description : String) : Clipboard :=
  { c with undo := some ⟨layer_index, original_keys, description⟩ }

/-- The slice of `AppState` that `handle_paste_key` reads and writes (status
and highlight messages are omitted). -/
structure PasteState where
  layers : List Layer
  currentLayer : Nat
  selectedPosition : Position
  clipboard : Clipboard
deriving DecidableEq

/-- Writing the pasted `ClipboardContent` into an existing key
(`key.keycode = ...; key.color_override = ...; key.category_id = ...`). -/
def pasteContent (c : ClipboardContent) (k : KeyDefinition) : KeyDefinition :=
  { k with
    keycode := c.keycode
    color_override := c.color_override
    category_id := c.category_id }

/-- Clearing a cut-source key to the transparent marker
(`source_key.keycode = "KC_TRNS"; ... = None; ... = None`). -/
def clearKeyFields (k : KeyDefinition) : KeyDefinition :=
  { k with keycode := "KC_TRNS", color_override := none, category_id := none }

/-- `layer.keys.iter_mut().find(|k| k.position == p)` followed by a field
update: rewrites the first key at `p`, if any. -/
def updateFirstKey :
    List KeyDefinition → Position → (KeyDefinition → KeyDefinition) →
      List KeyDefinition
  | [], _, _ => []
  | k :: ks, p, f =>
      if k.position = p then f k :: ks else k :: updateFirstKey ks p f

/-- `layers.get_mut(i)` followed by an update: rewrites the `i`-th layer, a
no-op when out of range. -/
def modifyNthLayer : List Layer → Nat → (Layer → Layer) → List Layer
  | [], _, _ => []
  | l :: ls, 0, f => f l :: ls
  | l :: ls, n + 1, f => l :: modifyNthLayer ls n f

/-- `layers.get(li)` then `keys.iter().find(|k| k.position == p)`. -/
def findKeyIn (layers : List Layer) (li : Nat) (p : Position) :
    Option KeyDefinition :=
  match layers[li]? with
  | some ly => ly.keys.find? (fun k => decide (k.position = p))
  | none => none

/-- The paste-target computation of `handle_paste_key`
(`src/tui/handlers/action_handlers/key_ops.rs`, multi branch): each source
position is shifted by `(current - anchor)` in `isize` arithmetic, kept when
both coordinates are within `[0, u8::MAX]` and `mapping.is_valid_position`
accepts the re-based position. -/
def rebaseTargets (m : VisualLayoutMapping) (anchor current : Position)
    (keys : List (Position × ClipboardContent)) :
    List (Position × ClipboardContent) :=
  keys.filterMap (fun pc =>
    let tr : Int := (pc.1.row : Int) + ((current.row : Int) - (anchor.row : Int))
    let tc : Int := (pc.1.col : Int) + ((current.col : Int) - (anchor.col : Int))
    if 0 ≤ tr ∧ 0 ≤ tc ∧ tr ≤ 255 ∧ tc ≤ 255 then
      if m.is_valid_position ⟨tr.toNat, tc.toNat⟩ then
        some (⟨tr.toNat, tc.toNat⟩, pc.2)
      else none
    else none)

/-- The paste set as the specification words it (§4.5): a re-based position
is included exactly when both coordinates are non-negative and
`mapping.is_valid_position` holds for it.  Second definition used only to
compare against `rebaseTargets`. -/
def specPasteSet (m : VisualLayoutMapping) (anchor current : Position)
    (keys : List (Position × ClipboardContent)) :
    List (Position × ClipboardContent) :=
  keys.filterMap (fun pc =>
    let tr : Int := (pc.1.row : Int) + ((current.row : Int) - (anchor.row : Int))
    let tc : Int := (pc.1.col : Int) + ((current.col : Int) - (anchor.col : Int))
    if 0 ≤ tr ∧ 0 ≤ tc then
      if m.is_valid_position ⟨tr.toNat, tc.toNat⟩ then
        some (⟨tr.toNat, tc.toNat⟩, pc.2)
      else none
    else none)

/-- The undo snapshot collected while building the paste targets: for each
target position holding a key, its prior content. -/
def collectUndo (layers : List Layer) (cur : Nat)
    (targets : List (Position × ClipboardContent)) :
    List (Position × ClipboardContent) :=
  targets.filterMap (fun tq =>
    (findKeyIn layers cur tq.1).map (fun k =>
      (tq.1, ⟨k.keycode, k.color_override, k.category_id⟩)))

/-- The paste-application loop: for each target, rewrite the first existing
key at that position in the current layer. -/
def applyPastes (layers : List Layer) (cur : Nat)
    (targets : List (Position × ClipboardContent)) : List Layer :=
  targets.foldl (fun lys tq =>
    modifyNthLayer lys cur (fun ly =>
      { ly with keys := updateFirstKey ly.keys tq.1 (pasteContent tq.2) }))
    layers

/-- The cut-source clearing loop: for each recorded `(layer, position)`, set
the first key there (if any) to the transparent marker. -/
def clearCutSources (layers : List Layer) (srcs : List (Nat × Position)) :
    List Layer :=
  srcs.foldl (fun lys s =>
    modifyNthLayer lys s.1 (fun ly =>
      { ly with keys := updateFirstKey ly.keys s.2 clearKeyFields }))
    layers

/-- `handle_paste_key` from `src/tui/handlers/action_handlers/key_ops.rs` as
a pure transformation of the paste-relevant state.  Status/error messages and
the flash highlight are omitted; every branch otherwise mirrors the source:
empty clipboard returns unchanged; the multi branch computes the target set,
returns unchanged when it is empty, else saves undo, applies the pastes, then
clears the recorded cut sources; the single branch saves undo when the
selected key exists, pastes into it, then clears the single cut source if one
was recorded. -/
def handle_paste_key (m : VisualLayoutMapping) (st : PasteState) :
    PasteState :=
  if !st.clipboard.has_content then st
  else if st.clipboard.is_multi then
    match st.clipboard.multi with
    | some multi =>
        let targets :=
          rebaseTargets m multi.anchor st.selectedPosition multi.keys
        if targets.isEmpty then st
        else
          let undoKeys := collectUndo st.layers st.currentLayer targets
          let cb1 := st.clipboard.save_undo st.currentLayer undoKeys
            ("Pasted " ++ toString targets.length ++ " keys")
          let layers1 := applyPastes st.layers st.currentLayer targets
          let layers2 := clearCutSources layers1 st.clipboard.multiCutSources
          { st with layers := layers2, clipboard := cb1.clear_cut_source }
    | none => st
  else
    match st.clipboard.single with
    | some content =>
        let cb1 :=
          match findKeyIn st.layers st.currentLayer st.selectedPosition with
          | some k =>
              st.clipboard.save_undo st.currentLayer
                [(st.selectedPosition, ⟨k.keycode, k.color_override,
                  k.category_id⟩)]
                ("Pasted: " ++ content.keycode)
          | none => st.clipboard
        let layers1 := modifyNthLayer st.layers st.currentLayer (fun ly =>
          { ly with
            keys := updateFirstKey ly.keys st.selectedPosition
              (pasteContent content) })
        match st.clipboard.singleCutSource with
        | some s =>
            let layers2 := clearCutSources layers1 [s]
            { st with layers := layers2, clipboard := cb1.clear_cut_source }
        | none => { st with layers := layers1, clipboard := cb1 }
    | none => st

/-- The positions a paste targets: the re-based multi set in the multi
branch, the selected position in the single branch, nothing when the
clipboard is empty. -/
def pasteTargetSet (m : VisualLayoutMapping) (st : PasteState) :
    List Position :=
  if !st.clipboard.has_content then []
  else if st.clipboard.is_multi then
    match st.clipboard.multi with
    | some multi =>
        (rebaseTargets m multi.anchor st.selectedPosition multi.keys).map
          Prod.fst
    | none => []
  else
    match st.clipboard.single with
    | some _ => [st.selectedPosition]
    | none => []

theorem position_pasteContent (c : ClipboardContent) (k : KeyDefinition) :
    (pasteContent c k).position = k.position := rfl

theorem position_clearKeyFields (k : KeyDefinition) :
    (clearKeyFields k).position = k.position := rfl

theorem find?_updateFirstKey (keys : List KeyDefinition) (p : Position)
    (f : KeyDefinition → KeyDefinition)
    (hf : ∀ k, (f k).position = k.position) (q : Position) :
    (updateFirstKey keys p f).find? (fun k => decide (k.position = q)) =
      if q = p then
        (keys.find? (fun k => decide (k.position = p))).map f
      else keys.find? (fun k => decide (k.position = q)) := by
  induction keys with
  | nil => by_cases h : q = p <;> simp [updateFirstKey, h]
  | cons k ks ih =>
    by_cases hkp : k.position = p
    · by_cases hqp : q = p
      · subst hqp
        simp [updateFirstKey, hkp, List.find?, hf]
      · have hkq : ¬ k.position = q := by
          rw [hkp]
          intro h
          exact hqp h.symm
        have hfq : ¬ (f k).position = q := by
          rw [hf k, hkp]
          intro h
          exact hqp h.symm
        simp [updateFirstKey, hkp, List.find?, hfq, hkq, hqp,
          show ¬ p = q from fun h => hqp h.symm]
    · by_cases hqp : q = p
      · subst hqp
        simp [updateFirstKey, hkp, List.find?, ih, hf]
      · by_cases hkq : k.position = q <;>
          simp [updateFirstKey, hkp, hkq, List.find?, ih, hqp]

theorem length_modifyNthLayer (ls : List Layer) (i : Nat)
    (f : Layer → Layer) : (modifyNthLayer ls i f).length = ls.length := by
  induction ls generalizing i with
  | nil => rfl
  | cons l ls ih =>
    cases i with
    | zero => rfl
    | succ i' => simp [modifyNthLayer, ih]

theorem getElem?_modifyNthLayer (ls : List Layer) (i : Nat)
    (f : Layer → Layer) (j : Nat) :
    (modifyNthLayer ls i f)[j]? =
      if j = i then (ls[i]?).map f else ls[j]? := by
  induction ls generalizing i j with
  | nil => simp [modifyNthLayer]
  | cons l ls ih =>
    cases i with
    | zero =>
      cases j with
      | zero => simp [modifyNthLayer]
      | succ j' => simp [modifyNthLayer]
    | succ i' =>
      cases j with
      | zero => simp [modifyNthLayer]
      | succ j' => simpa [modifyNthLayer] using ih i' j'

theorem findKeyIn_modify_update (layers : List Layer) (i : Nat)
    (q : Position) (f : KeyDefinition → KeyDefinition)
    (hf : ∀ k, (f k).position = k.position) (li : Nat) (p : Position) :
    findKeyIn
        (modifyNthLayer layers i (fun ly =>
          { ly with keys := updateFirstKey ly.keys q f })) li p =
      if li = i ∧ p = q then (findKeyIn layers li p).map f
      else findKeyIn layers li p := by
  by_cases hli : li = i
  · subst hli
    unfold findKeyIn
    rw [getElem?_modifyNthLayer, if_pos rfl]
    cases h : layers[li]? with
    | none => by_cases hpq : p = q <;> simp [hpq]
    | some ly =>
      simp only [Option.map_some']
      rw [find?_updateFirstKey ly.keys q f hf p]
      by_cases hpq : p = q <;> simp [hpq]
  · unfold findKeyIn
    rw [getElem?_modifyNthLayer, if_neg hli]
    simp [show ¬ (li = i ∧ p = q) from fun hc => hli hc.1]

theorem isSome_findKeyIn_applyPastes
    (targets : List (Position × ClipboardContent)) (layers : List Layer)
    (cur li : Nat) (p : Position) :
    (findKeyIn (applyPastes layers cur targets) li p).isSome =
      (findKeyIn layers li p).isSome := by
  induction targets generalizing layers with
  | nil => rfl
  | cons tq ts ih =>
    have hstep :
        applyPastes layers cur (tq :: ts) =
          applyPastes
            (modifyNthLayer layers cur (fun ly =>
              { ly with
                keys := updateFirstKey ly.keys tq.1 (pasteContent tq.2) }))
            cur ts := rfl
    rw [hstep, ih,
      findKeyIn_modify_update layers cur tq.1 (pasteContent tq.2)
        (fun _ => rfl) li p]
    by_cases h : li = cur ∧ p = tq.1 <;> simp [h]

theorem findKeyIn_applyPastes_frame
    (targets : List (Position × ClipboardContent)) (layers : List Layer)
    (cur li : Nat) (p : Position)
    (h : li ≠ cur ∨ p ∉ targets.map Prod.fst) :
    findKeyIn (applyPastes layers cur targets) li p =
      findKeyIn layers li p := by
  induction targets generalizing layers with
  | nil => rfl
  | cons tq ts ih =>
    have hcond : ¬ (li = cur ∧ p = tq.1) := by
      rcases h with h | h
      · exact fun hc => h hc.1
      · exact fun hc => h (by simp [hc.2])
    have hrest : li ≠ cur ∨ p ∉ ts.map Prod.fst := by
      rcases h with h | h
      · exact Or.inl h
      · right
        intro hm
        exact h (by simp [hm])
    have hstep :
        applyPastes layers cur (tq :: ts) =
          applyPastes
            (modifyNthLayer layers cur (fun ly =>
              { ly with
                keys := updateFirstKey ly.keys tq.1 (pasteContent tq.2) }))
            cur ts := rfl
    rw [hstep, ih _ hrest,
      findKeyIn_modify_update layers cur tq.1 (pasteContent tq.2)
        (fun _ => rfl) li p]
    simp [hcond]

theorem clearKeyFields_idem (k : KeyDefinition) :
    clearKeyFields (clearKeyFields k) = clearKeyFields k := rfl

theorem clearKeyFields_comp :
    clearKeyFields ∘ clearKeyFields = clearKeyFields :=
  funext fun _ => rfl

theorem findKeyIn_clearCutSources (srcs : List (Nat × Position))
    (layers : List Layer) (li : Nat) (p : Position) :
    findKeyIn (clearCutSources layers srcs) li p =
      if (li, p) ∈ srcs then (findKeyIn layers li p).map clearKeyFields
      else findKeyIn layers li p := by
  induction srcs generalizing layers with
  | nil => simp [clearCutSources]
  | cons s ss ih =>
    have hstep :
        clearCutSources layers (s :: ss) =
          clearCutSources
            (modifyNthLayer layers s.1 (fun ly =>
              { ly with keys := updateFirstKey ly.keys s.2 clearKeyFields }))
            ss := rfl
    have hmod := findKeyIn_modify_update layers s.1 s.2 clearKeyFields
      (fun _ => rfl) li p
    rw [hstep, ih, hmod]
    by_cases hmem : (li, p) ∈ ss
    · by_cases hc : li = s.1 ∧ p = s.2 <;>
        simp [hmem, hc, List.mem_cons, Option.map_map, clearKeyFields_comp]
    · by_cases hc : li = s.1 ∧ p = s.2
      · have hp : (li, p) = s := Prod.ext hc.1 hc.2
        have hs : s ∉ ss := hp ▸ hmem
        simp [hmem, hc, hp, hs, List.mem_cons, Option.map_map,
          clearKeyFields_comp]
      · have hp : (li, p) ≠ s := by
          intro h
          exact hc ⟨congrArg Prod.fst h, congrArg Prod.snd h⟩
        simp [hmem, hc, hp, List.mem_cons]

theorem map_position_updateFirstKey (keys : List KeyDefinition)
    (p : Position) (f : KeyDefinition → KeyDefinition)
    (hf : ∀ k, (f k).position = k.position) :
    (updateFirstKey keys p f).map (fun k => k.position) =
      keys.map (fun k => k.position) := by
  induction keys with
  | nil => rfl
  | cons k ks ih =>
    by_cases hkp : k.position = p <;> simp [updateFirstKey, hkp, hf, ih]

theorem shape_modify_update (layers : List Layer) (i : Nat) (q : Position)
    (f : KeyDefinition → KeyDefinition)
    (hf : ∀ k, (f k).position = k.position) (j : Nat) :
    ((modifyNthLayer layers i (fun ly =>
        { ly with keys := updateFirstKey ly.keys q f }))[j]?).map
        (fun ly => ly.keys.map (fun k => k.position)) =
      (layers[j]?).map (fun ly => ly.keys.map (fun k => k.position)) := by
  rw [getElem?_modifyNthLayer]
  by_cases hj : j = i
  · subst hj
    cases h : layers[j]? with
    | none => simp
    | some ly => simp [map_position_updateFirstKey _ _ _ hf]
  · simp [hj]

theorem shape_applyPastes (targets : List (Position × ClipboardContent))
    (layers : List Layer) (cur : Nat) (j : Nat) :
    ((applyPastes layers cur targets)[j]?).map
        (fun ly => ly.keys.map (fun k => k.position)) =
      (layers[j]?).map (fun ly => ly.keys.map (fun k => k.position)) := by
  induction targets generalizing layers with
  | nil => rfl
  | cons tq ts ih =>
    have hstep :
        applyPastes layers cur (tq :: ts) =
          applyPastes
            (modifyNthLayer layers cur (fun ly =>
              { ly with
                keys := updateFirstKey ly.keys tq.1 (pasteContent tq.2) }))
            cur ts := rfl
    rw [hstep, ih,
      shape_modify_update layers cur tq.1 (pasteContent tq.2) (fun _ => rfl)]

theorem shape_clearCutSources (srcs : List (Nat × Position))
    (layers : List Layer) (j : Nat) :
    ((clearCutSources layers srcs)[j]?).map
        (fun ly => ly.keys.map (fun k => k.position)) =
      (layers[j]?).map (fun ly => ly.keys.map (fun k => k.position)) := by
  induction srcs generalizing layers with
  | nil => rfl
  | cons s ss ih =>
    have hstep :
        clearCutSources layers (s :: ss) =
          clearCutSources
            (modifyNthLayer layers s.1 (fun ly =>
              { ly with keys := updateFirstKey ly.keys s.2 clearKeyFields }))
            ss := rfl
    rw [hstep, ih,
      shape_modify_update layers s.1 s.2 clearKeyFields (fun _ => rfl)]

theorem length_applyPastes (targets : List (Position × ClipboardContent))
    (layers : List Layer) (cur : Nat) :
    (applyPastes layers cur targets).length = layers.length := by
  induction targets generalizing layers with
  | nil => rfl
  | cons tq ts ih =>
    have hstep :
        applyPastes layers cur (tq :: ts) =
          applyPastes
            (modifyNthLayer layers cur (fun ly =>
              { ly with
                keys := updateFirstKey ly.keys tq.1 (pasteContent tq.2) }))
            cur ts := rfl
    rw [hstep, ih, length_modifyNthLayer]

theorem length_clearCutSources (srcs : List (Nat × Position))
    (layers : List Layer) :
    (clearCutSources layers srcs).length = layers.length := by
  induction srcs generalizing layers with
  | nil => rfl
  | cons s ss ih =>
    have hstep :
        clearCutSources layers (s :: ss) =
          clearCutSources
            (modifyNthLayer layers s.1 (fun ly =>
              { ly with keys := updateFirstKey ly.keys s.2 clearKeyFields }))
            ss := rfl
    rw [hstep, ih, length_modifyNthLayer]

theorem filterMap_congr_mem {α β : Type} (l : List α) (f g : α → Option β)
    (h : ∀ a ∈ l, f a = g a) : l.filterMap f = l.filterMap g := by
  induction l with
  | nil => rfl
  | cons a t ih =>
    have ha := h a (List.mem_cons_self a t)
    have ht := ih (fun x hx => h x (List.mem_cons_of_mem a hx))
    simp [List.filterMap_cons, ha, ht]

/-- C7: on a multi-key paste, when every re-based target is rejected (the
paste set is empty) the handler mutates nothing — in particular the cut
sources are untouched; when the paste set is non-empty every recorded
cut-source position still holds a key exactly when it did before, and that
key has been set to the transparent marker with color and category
cleared. -/
theorem C7_cut_cleared_only_after_nonempty_paste :
    ∀ (m : VisualLayoutMapping) (st : PasteState) (multi : MultiContent),
      st.clipboard.multi = some multi →
      ((rebaseTargets m multi.anchor st.selectedPosition multi.keys = [] →
          handle_paste_key m st = st) ∧
        (rebaseTargets m multi.anchor st.selectedPosition multi.keys ≠ [] →
          ∀ (li : Nat) (p : Position),
            (li, p) ∈ st.clipboard.multiCutSources →
            ((findKeyIn (handle_paste_key m st).layers li p).isSome =
              (findKeyIn st.layers li p).isSome) ∧
            ∀ k : KeyDefinition,
              findKeyIn (handle_paste_key m st).layers li p = some k →
              k.keycode = "KC_TRNS" ∧ k.color_override = none ∧
                k.category_id = none)) := by
  intro m st multi hm
  have hhc : st.clipboard.has_content = true := by
    simp [Clipboard.has_content, hm]
  have him : st.clipboard.is_multi = true := by
    simp [Clipboard.is_multi, hm]
  constructor
  · intro hempty
    simp [handle_paste_key, hhc, him, hm, hempty]
  · intro hne li p hmem
    have hemp :
        (rebaseTargets m multi.anchor st.selectedPosition
          multi.keys).isEmpty = false := by
      cases hT : rebaseTargets m multi.anchor st.selectedPosition multi.keys
      · exact absurd hT hne
      · rfl
    have hlay :
        (handle_paste_key m st).layers =
          clearCutSources
            (applyPastes st.layers st.currentLayer
              (rebaseTargets m multi.anchor st.selectedPosition multi.keys))
            st.clipboard.multiCutSources := by
      simp [handle_paste_key, hhc, him, hm, hemp]
    rw [hlay, findKeyIn_clearCutSources]
    simp only [hmem, if_pos]
    constructor
    · simp [isSome_findKeyIn_applyPastes]
    · intro k hk
      rcases Option.map_eq_some'.mp hk with ⟨k0, _, rfl⟩
      exact ⟨rfl, rfl, rfl⟩

/-- A mapping with no valid positions. -/
def emptyMapping : VisualLayoutMapping := ⟨[]⟩

/-- The clipboard payload `KC_A` used by the paste scenarios. -/
def contentA : ClipboardContent :=
  { keycode := "KC_A", color_override := none, category_id := none }

/-- A one-key multi clipboard content anchored at `(0,0)`. -/
def multiA : MultiContent :=
  { anchor := ⟨0, 0⟩, keys := [(⟨0, 0⟩, contentA)] }

/-- A state holding a cut one-key clipboard whose every re-based target is
invalid under `emptyMapping`. -/
def stateC7 : PasteState :=
  { layers :=
      [{ number := 0, name := "Base", default_color := ⟨0, 0, 0⟩,
         category_id := none,
         keys := [{ position := ⟨0, 0⟩, keycode := "KC_A",
                    color_override := none, category_id := none }] }]
    currentLayer := 0
    selectedPosition := ⟨1, 1⟩
    clipboard :=
      { single := none
        singleCutSource := none
        multi := some multiA
        multiCutSources := [(0, ⟨0, 0⟩)]
        undo := none } }

/-- A mapping in which only position `(1,1)` is valid. -/
def mapC6 : VisualLayoutMapping := ⟨[(⟨1, 1⟩, 0)]⟩

/-- A state with a one-key cut clipboard anchored at `(0,0)`, pasted at
`(1,1)`. -/
def stateC6 : PasteState :=
  { layers :=
      [{ number := 0, name := "Base", default_color := ⟨0, 0, 0⟩,
         category_id := none,
         keys := [{ position := ⟨0, 0⟩, keycode := "KC_A",
                    color_override := none, category_id := none },
                  { position := ⟨1, 1⟩, keycode := "KC_B",
                    color_override := none, category_id := none }] }]
    currentLayer := 0
    selectedPosition := ⟨1, 1⟩
    clipboard :=
      { single := none
        singleCutSource := none
        multi := some multiA
        multiCutSources := [(0, ⟨0, 0⟩)]
        undo := none } }

/-- C7 witness: the theorem applied at concrete states: a fully-invalid
multi-key cut paste leaves the state unchanged, and a valid one preserves
key existence at the cut source while clearing it. -/
theorem C7_cut_cleared_witness :
    handle_paste_key emptyMapping stateC7 = stateC7 ∧
    (findKeyIn (handle_paste_key mapC6 stateC6).layers 0 ⟨0, 0⟩).isSome =
      (findKeyIn stateC6.layers 0 ⟨0, 0⟩).isSome :=
  ⟨(C7_cut_cleared_only_after_nonempty_paste emptyMapping stateC7 multiA
      rfl).1 (by decide),
    ((C7_cut_cleared_only_after_nonempty_paste mapC6 stateC6 multiA
      rfl).2 (by decide) 0 ⟨0, 0⟩ (by decide)).1⟩

/-- C6 counterexample: on a multi-key paste whose clipboard came from a cut,
position `(0,0)` is outside the computed paste set `[(1,1)]` and is written
anyway (its key is cleared to the transparent marker), so the claim that only
positions in the paste set are written is false as stated. -/
theorem C6_cut_paste_writes_outside_paste_set :
    pasteTargetSet mapC6 stateC6 = [⟨1, 1⟩] ∧
    (⟨0, 0⟩ : Position) ∉ pasteTargetSet mapC6 stateC6 ∧
    findKeyIn stateC6.layers 0 ⟨0, 0⟩ =
      some { position := ⟨0, 0⟩, keycode := "KC_A", color_override := none,
             category_id := none } ∧
    findKeyIn (handle_paste_key mapC6 stateC6).layers 0 ⟨0, 0⟩ =
      some { position := ⟨0, 0⟩, keycode := "KC_TRNS",
             color_override := none, category_id := none } := by
  refine ⟨?_, ?_, ?_, ?_⟩ <;> decide

/-- C6 (amended): on a multi-key paste the computed target set contains the
re-base of each source position exactly when both re-based coordinates are
non-negative and `mapping.is_valid_position` holds for it (the additional
`u8` upper-bound test in the code is redundant because every valid position
fits in `u8`); and when the clipboard content was copied (no cut sources),
only positions in the paste set are written — a cut-sourced paste
additionally clears the original cut-source positions. -/
theorem C6_rebase_set_and_copy_frame :
    ∀ (m : VisualLayoutMapping) (st : PasteState) (multi : MultiContent),
      st.clipboard.multi = some multi →
      (∀ e ∈ m.table, e.1.row ≤ 255 ∧ e.1.col ≤ 255) →
      (rebaseTargets m multi.anchor st.selectedPosition multi.keys =
        specPasteSet m multi.anchor st.selectedPosition multi.keys) ∧
      (st.clipboard.multiCutSources = [] →
        ∀ (li : Nat) (p : Position),
          li ≠ st.currentLayer ∨ p ∉ pasteTargetSet m st →
          findKeyIn (handle_paste_key m st).layers li p =
            findKeyIn st.layers li p) := by
  intro m st multi hm hbound
  have hhc : st.clipboard.has_content = true := by
    simp [Clipboard.has_content, hm]
  have him : st.clipboard.is_multi = true := by
    simp [Clipboard.is_multi, hm]
  constructor
  · unfold rebaseTargets specPasteSet
    apply filterMap_congr_mem
    intro pc _
    by_cases hcode :
        0 ≤ (pc.1.row : Int) +
            ((st.selectedPosition.row : Int) - (multi.anchor.row : Int)) ∧
          0 ≤ (pc.1.col : Int) +
            ((st.selectedPosition.col : Int) - (multi.anchor.col : Int)) ∧
          (pc.1.row : Int) +
              ((st.selectedPosition.row : Int) - (multi.anchor.row : Int)) ≤
            255 ∧
          (pc.1.col : Int) +
              ((st.selectedPosition.col : Int) - (multi.anchor.col : Int)) ≤
            255
    · have hnn :
          0 ≤ (pc.1.row : Int) +
              ((st.selectedPosition.row : Int) - (multi.anchor.row : Int)) ∧
            0 ≤ (pc.1.col : Int) +
              ((st.selectedPosition.col : Int) - (multi.anchor.col : Int)) :=
        ⟨hcode.1, hcode.2.1⟩
      simp only [if_pos hcode, if_pos hnn]
    · by_cases hnn :
          0 ≤ (pc.1.row : Int) +
              ((st.selectedPosition.row : Int) - (multi.anchor.row : Int)) ∧
            0 ≤ (pc.1.col : Int) +
              ((st.selectedPosition.col : Int) - (multi.anchor.col : Int))
      · have hval :
            m.is_valid_position
                ⟨((pc.1.row : Int) +
                    ((st.selectedPosition.row : Int) -
                      (multi.anchor.row : Int))).toNat,
                  ((pc.1.col : Int) +
                    ((st.selectedPosition.col : Int) -
                      (multi.anchor.col : Int))).toNat⟩ = false := by
          by_contra hvp
          have hvp' :
              (m.table.find? (fun e => decide (e.1 =
                (⟨((pc.1.row : Int) +
                    ((st.selectedPosition.row : Int) -
                      (multi.anchor.row : Int))).toNat,
                  ((pc.1.col : Int) +
                    ((st.selectedPosition.col : Int) -
                      (multi.anchor.col : Int))).toNat⟩ : Position)))).isSome =
                true := by
            unfold VisualLayoutMapping.is_valid_position at hvp
            revert hvp
            cases (m.table.find? fun e => decide (e.1 =
              (⟨((pc.1.row : Int) +
                  ((st.selectedPosition.row : Int) -
                    (multi.anchor.row : Int))).toNat,
                ((pc.1.col : Int) +
                  ((st.selectedPosition.col : Int) -
                    (multi.anchor.col : Int))).toNat⟩ : Position))).isSome
            · intro hvp
              exact absurd rfl hvp
            · intro _
              rfl
          rcases List.find?_isSome.mp hvp' with ⟨e, hemem, hep⟩
          have hepos := of_decide_eq_true hep
          have hb := hbound e hemem
          rw [hepos] at hb
          have h1 :
              ((pc.1.row : Int) +
                ((st.selectedPosition.row : Int) -
                  (multi.anchor.row : Int))).toNat ≤ 255 := hb.1
          have h2 :
              ((pc.1.col : Int) +
                ((st.selectedPosition.col : Int) -
                  (multi.anchor.col : Int))).toNat ≤ 255 := hb.2
          have hr := Int.toNat_of_nonneg hnn.1
          have hc := Int.toNat_of_nonneg hnn.2
          apply hcode
          refine ⟨hnn.1, hnn.2, ?_, ?_⟩ <;> omega
        simp only [if_neg hcode, if_pos hnn, hval, Bool.false_eq_true,
          if_false]
      · simp only [if_neg hcode, if_neg hnn]
  · intro hcs li p hside
    by_cases hemp :
        (rebaseTargets m multi.anchor st.selectedPosition
          multi.keys).isEmpty = true
    · have hst : handle_paste_key m st = st := by
        simp [handle_paste_key, hhc, him, hm, hemp]
      rw [hst]
    · have hlay :
          (handle_paste_key m st).layers =
            clearCutSources
              (applyPastes st.layers st.currentLayer
                (rebaseTargets m multi.anchor st.selectedPosition multi.keys))
              st.clipboard.multiCutSources := by
        simp [handle_paste_key, hhc, him, hm, hemp]
      rw [hlay, hcs]
      have hcc :
          clearCutSources
              (applyPastes st.layers st.currentLayer
                (rebaseTargets m multi.anchor st.selectedPosition multi.keys))
              [] =
            applyPastes st.layers st.currentLayer
              (rebaseTargets m multi.anchor st.selectedPosition multi.keys) :=
        rfl
      rw [hcc]
      apply findKeyIn_applyPastes_frame
      have hpts :
          pasteTargetSet m st =
            (rebaseTargets m multi.anchor st.selectedPosition
              multi.keys).map Prod.fst := by
        simp [pasteTargetSet, hhc, him, hm]
      rw [hpts] at hside
      exact hside

/-- The copy-mode variant of `stateC6` (no cut sources). -/
def stateC6copy : PasteState :=
  { stateC6 with
    clipboard := { stateC6.clipboard with multiCutSources := [] } }

/-- C6 witness: the amended theorem applied to a concrete copy-mode paste:
the code's target set equals the specification's paste set and a position
outside the paste set is untouched. -/
theorem C6_rebase_set_witness :
    rebaseTargets mapC6 multiA.anchor stateC6copy.selectedPosition
        multiA.keys =
      specPasteSet mapC6 multiA.anchor stateC6copy.selectedPosition
        multiA.keys ∧
    findKeyIn (handle_paste_key mapC6 stateC6copy).layers 0 ⟨0, 0⟩ =
      findKeyIn stateC6copy.layers 0 ⟨0, 0⟩ :=
  ⟨(C6_rebase_set_and_copy_frame mapC6 stateC6copy multiA rfl
      (by decide)).1,
    (C6_rebase_set_and_copy_frame mapC6 stateC6copy multiA rfl
      (by decide)).2 rfl 0 ⟨0, 0⟩ (Or.inr (by decide))⟩

/-- A state with a single-key cut clipboard: `KC_A` was cut from `(0,0)` and
is pasted at the selected position `(0,1)`. -/
def stateC10 : PasteState :=
  { layers :=
      [{ number := 0, name := "Base", default_color := ⟨0, 0, 0⟩,
         category_id := none,
         keys := [{ position := ⟨0, 0⟩, keycode := "KC_A",
                    color_override := none, category_id := none },
                  { position := ⟨0, 1⟩, keycode := "KC_B",
                    color_override := none, category_id := none }] }]
    currentLayer := 0
    selectedPosition := ⟨0, 1⟩
    clipboard :=
      { single := some contentA
        singleCutSource := some (0, ⟨0, 0⟩)
        multi := none
        multiCutSources := []
        undo := none } }

/-- C10 counterexample: a single-key paste whose clipboard came from a cut
mutates position `(0,0)`, which is outside the paste-target set `[(0,1)]`
(the cut-source key is cleared), so the claim that every key outside the
paste-target set keeps its fields is false as stated. -/
theorem C10_cut_paste_mutates_outside_target :
    pasteTargetSet emptyMapping stateC10 = [⟨0, 1⟩] ∧
    (⟨0, 0⟩ : Position) ∉ pasteTargetSet emptyMapping stateC10 ∧
    findKeyIn stateC10.layers 0 ⟨0, 0⟩ =
      some { position := ⟨0, 0⟩, keycode := "KC_A", color_override := none,
             category_id := none } ∧
    findKeyIn (handle_paste_key emptyMapping stateC10).layers 0 ⟨0, 0⟩ =
      some { position := ⟨0, 0⟩, keycode := "KC_TRNS",
             color_override := none, category_id := none } := by
  refine ⟨?_, ?_, ?_, ?_⟩ <;> decide

/-- C10 (amended): no paste ever creates or removes a key — the layer count
and every layer's ordered key-position list are unchanged, so a valid paste
target with no existing `KeyDefinition` is silently skipped; and for a paste
whose clipboard holds no cut sources, every key outside the paste-target set
(or outside the current layer) keeps its keycode, color override and category
id.  A cut-sourced paste additionally clears the cut-source keys. -/
theorem C10_paste_no_creation_and_copy_frame :
    ∀ (m : VisualLayoutMapping) (st : PasteState),
      ((handle_paste_key m st).layers.length = st.layers.length) ∧
      (∀ j : Nat,
        ((handle_paste_key m st).layers[j]?).map
            (fun ly => ly.keys.map (fun k => k.position)) =
          (st.layers[j]?).map
            (fun ly => ly.keys.map (fun k => k.position))) ∧
      (st.clipboard.multiCutSources = [] →
        st.clipboard.singleCutSource = none →
        ∀ (li : Nat) (p : Position),
          li ≠ st.currentLayer ∨ p ∉ pasteTargetSet m st →
          findKeyIn (handle_paste_key m st).layers li p =
            findKeyIn st.layers li p) := by
  intro m st
  by_cases hhc : st.clipboard.has_content = true
  · by_cases him : st.clipboard.is_multi = true
    · rcases hmu : st.clipboard.multi with _ | multi
      · have : st.clipboard.is_multi = false := by
          simp [Clipboard.is_multi, hmu]
        rw [this] at him
        cases him
      · by_cases hemp :
            (rebaseTargets m multi.anchor st.selectedPosition
              multi.keys).isEmpty = true
        · have hst : handle_paste_key m st = st := by
            simp [handle_paste_key, hhc, him, hmu, hemp]
          rw [hst]
          exact ⟨rfl, fun _ => rfl, fun _ _ _ _ _ => rfl⟩
        · have hlay :
              (handle_paste_key m st).layers =
                clearCutSources
                  (applyPastes st.layers st.currentLayer
                    (rebaseTargets m multi.anchor st.selectedPosition
                      multi.keys))
                  st.clipboard.multiCutSources := by
            simp [handle_paste_key, hhc, him, hmu, hemp]
          refine ⟨?_, ?_, ?_⟩
          · rw [hlay, length_clearCutSources, length_applyPastes]
          · intro j
            rw [hlay, shape_clearCutSources, shape_applyPastes]
          · intro hcs _ li p hside
            rw [hlay, hcs]
            have hcc :
                clearCutSources
                    (applyPastes st.layers st.currentLayer
                      (rebaseTargets m multi.anchor st.selectedPosition
                        multi.keys)) [] =
                  applyPastes st.layers st.currentLayer
                    (rebaseTargets m multi.anchor st.selectedPosition
                      multi.keys) := rfl
            rw [hcc]
            apply findKeyIn_applyPastes_frame
            have hpts :
                pasteTargetSet m st =
                  (rebaseTargets m multi.anchor st.selectedPosition
                    multi.keys).map Prod.fst := by
              simp [pasteTargetSet, hhc, him, hmu]
            rw [hpts] at hside
            exact hside
    · rcases hsi : st.clipboard.single with _ | content
      · have hst : handle_paste_key m st = st := by
          simp [handle_paste_key, hhc, him, hsi]
        rw [hst]
        exact ⟨rfl, fun _ => rfl, fun _ _ _ _ _ => rfl⟩
      · rcases hcut : st.clipboard.singleCutSource with _ | s
        · have hlay :
              (handle_paste_key m st).layers =
                modifyNthLayer st.layers st.currentLayer (fun ly =>
                  { ly with
                    keys := updateFirstKey ly.keys st.selectedPosition
                      (pasteContent content) }) := by
            simp [handle_paste_key, hhc, him, hsi, hcut]
          refine ⟨?_, ?_, ?_⟩
          · rw [hlay, length_modifyNthLayer]
          · intro j
            rw [hlay]
            exact shape_modify_update st.layers st.currentLayer
              st.selectedPosition (pasteContent content) (fun _ => rfl) j
          · intro _ _ li p hside
            rw [hlay,
              findKeyIn_modify_update st.layers st.currentLayer
                st.selectedPosition (pasteContent content) (fun _ => rfl)
                li p]
            have hpts : pasteTargetSet m st = [st.selectedPosition] := by
              simp [pasteTargetSet, hhc, him, hsi]
            rw [hpts] at hside
            have hcond : ¬ (li = st.currentLayer ∧ p = st.selectedPosition) := by
              rcases hside with h | h
              · exact fun hc => h hc.1
              · exact fun hc => h (by simp [hc.2])
            simp [hcond]
        · have hlay :
              (handle_paste_key m st).layers =
                clearCutSources
                  (modifyNthLayer st.layers st.currentLayer (fun ly =>
                    { ly with
                      keys := updateFirstKey ly.keys st.selectedPosition
                        (pasteContent content) })) [s] := by
            simp [handle_paste_key, hhc, him, hsi, hcut]
          refine ⟨?_, ?_, ?_⟩
          · rw [hlay, length_clearCutSources, length_modifyNthLayer]
          · intro j
            rw [hlay, shape_clearCutSources]
            exact shape_modify_update st.layers st.currentLayer
              st.selectedPosition (pasteContent content) (fun _ => rfl) j
          · intro _ hnone
            exact Option.noConfusion hnone
  · have hst : handle_paste_key m st = st := by
      simp [handle_paste_key, hhc]
    rw [hst]
    exact ⟨rfl, fun _ => rfl, fun _ _ _ _ _ => rfl⟩

/-- The copy-mode variant of `stateC10` (no cut source). -/
def stateC10copy : PasteState :=
  { stateC10 with
    clipboard := { stateC10.clipboard with singleCutSource := none } }

/-- C10 witness: the amended theorem applied to a concrete copy-mode
single-key paste: key count and key positions are preserved and the key at
`(0,0)`, outside the paste-target set, is unchanged. -/
theorem C10_paste_no_creation_witness :
    (handle_paste_key emptyMapping stateC10copy).layers.length =
        stateC10copy.layers.length ∧
      findKeyIn (handle_paste_key emptyMapping stateC10copy).layers 0
          ⟨0, 0⟩ =
        findKeyIn stateC10copy.layers 0 ⟨0, 0⟩ :=
  ⟨(C10_paste_no_creation_and_copy_frame emptyMapping stateC10copy).1,
    (C10_paste_no_creation_and_copy_frame emptyMapping stateC10copy).2.2 rfl
      rfl 0 ⟨0, 0⟩ (Or.inr (by decide))⟩

/-- Extend the first piece of a split with a leading character. -/
def consHead (c : Char) : List (List Char) → List (List Char)
  | [] => [[c]]
  | l :: ls => (c :: l) :: ls

/-- Rust `str::lines` piece splitting at `'\n'` (`tests/golden_helper.rs`
operates per line via `content.lines()`). -/
def splitOnNl : List Char → List (List Char)
  | [] => [[]]
  | c :: cs =>
    if c = '\n' then [] :: splitOnNl cs
    else consHead c (splitOnNl cs)

/-- Rust `str::lines` strips one trailing carriage return per line. -/
def stripCr : List Char → List Char
  | [] => []
  | [c] => if c = '\x0d' then [] else [c]
  | c :: d :: t => c :: stripCr (d :: t)

/-- Rust `str::lines`: split at `'\n'`, no empty final line for a trailing
newline, one trailing `'\r'` stripped per line. -/
def rustLines (s : String) : List String :=
  let ps := splitOnNl s.data
  let qs := if ps.getLast? = some [] then ps.dropLast else ps
  qs.map (fun l => String.mk (stripCr l))

/-- Rust `str::trim_end`: drop trailing whitespace. -/
def trimEndChars (l : List Char) : List Char :=
  (l.reverse.dropWhile Char.isWhitespace).reverse

/-- Rust `str::contains(pat)`. -/
def rustContains (s pat : String) : Bool :=
  decide (pat.data <:+: s.data)

/-- A regex `\w` word character (ASCII), for the `\b` boundaries of the UUID
pattern in `tests/golden_helper.rs`. -/
def isWordChar (c : Char) : Bool :=
  c.isAlphanum || c = '_'

/-- A `[0-9a-fA-F]` character. -/
def isHexChar (c : Char) : Bool :=
  c.isDigit || ('a' ≤ c && c ≤ 'f') || ('A' ≤ c && c ≤ 'F')

/-- Consume exactly `n` hex digits. -/
def takeHexN : Nat → List Char → Option (List Char)
  | 0, l => some l
  | _ + 1, [] => none
  | n + 1, c :: cs => if isHexChar c then takeHexN n cs else none

/-- Consume one `'-'`. -/
def expectDash : List Char → Option (List Char)
  | [] => none
  | c :: cs => if c = '-' then some cs else none

/-- The trailing `\b` boundary of the UUID pattern of `replace_uuids`
(`tests/golden_helper.rs`): the character after the match, if any, must not
be a word character. -/
def checkTrailingBoundary (l : List Char) : Option (List Char) :=
  match l with
  | [] => some []
  | c :: _ => if isWordChar c then none else some l

/-- Match the 8-4-4-4-12 hex-digit UUID pattern of `replace_uuids` at the
head of `l`; the leading `\b` boundary is checked by the caller, the
trailing one by `checkTrailingBoundary`. -/
def matchUuidAt (l : List Char) : Option (List Char) :=
  (takeHexN 8 l).bind fun l1 =>
  (expectDash l1).bind fun l2 =>
  (takeHexN 4 l2).bind fun l3 =>
  (expectDash l3).bind fun l4 =>
  (takeHexN 4 l4).bind fun l5 =>
  (expectDash l5).bind fun l6 =>
  (takeHexN 4 l6).bind fun l7 =>
  (expectDash l7).bind fun l8 =>
  (takeHexN 12 l8).bind fun l9 =>
  checkTrailingBoundary l9

theorem takeHexN_length :
    ∀ (n : Nat) (l r : List Char), takeHexN n l = some r →
      r.length + n = l.length := by
  intro n
  induction n with
  | zero =>
    intro l r h
    cases h
    rfl
  | succ n ih =>
    intro l r h
    cases l with
    | nil => cases h
    | cons c cs =>
      unfold takeHexN at h
      by_cases hc : isHexChar c = true
      · rw [if_pos hc] at h
        have := ih cs r h
        simp [List.length_cons]
        omega
      · rw [if_neg hc] at h
        cases h

theorem expectDash_length :
    ∀ (l r : List Char), expectDash l = some r → r.length + 1 = l.length := by
  intro l r h
  cases l with
  | nil => cases h
  | cons c cs =>
    simp only [expectDash] at h
    by_cases hc : c = '-'
    · rw [if_pos hc] at h
      cases h
      rfl
    · rw [if_neg hc] at h
      cases h

theorem checkTrailingBoundary_length (l r : List Char)
    (h : checkTrailingBoundary l = some r) : r.length = l.length := by
  cases l with
  | nil =>
    cases h
    rfl
  | cons c cs =>
    simp only [checkTrailingBoundary] at h
    by_cases hw : isWordChar c = true
    · rw [if_pos hw] at h
      cases h
    · rw [if_neg hw] at h
      cases h
      rfl

theorem matchUuidAt_length (l r : List Char) (h : matchUuidAt l = some r) :
    r.length + 36 = l.length := by
  unfold matchUuidAt at h
  cases h1 : takeHexN 8 l with
  | none => rw [h1] at h; simp at h
  | some l1 =>
  rw [h1] at h
  simp only [Option.some_bind] at h
  cases h2 : expectDash l1 with
  | none => rw [h2] at h; simp at h
  | some l2 =>
  rw [h2] at h
  simp only [Option.some_bind] at h
  cases h3 : takeHexN 4 l2 with
  | none => rw [h3] at h; simp at h
  | some l3 =>
  rw [h3] at h
  simp only [Option.some_bind] at h
  cases h4 : expectDash l3 with
  | none => rw [h4] at h; simp at h
  | some l4 =>
  rw [h4] at h
  simp only [Option.some_bind] at h
  cases h5 : takeHexN 4 l4 with
  | none => rw [h5] at h; simp at h
  | some l5 =>
  rw [h5] at h
  simp only [Option.some_bind] at h
  cases h6 : expectDash l5 with
  | none => rw [h6] at h; simp at h
  | some l6 =>
  rw [h6] at h
  simp only [Option.some_bind] at h
  cases h7 : takeHexN 4 l6 with
  | none => rw [h7] at h; simp at h
  | some l7 =>
  rw [h7] at h
  simp only [Option.some_bind] at h
  cases h8 : expectDash l7 with
  | none => rw [h8] at h; simp at h
  | some l8 =>
  rw [h8] at h
  simp only [Option.some_bind] at h
  cases h9 : takeHexN 12 l8 with
  | none => rw [h9] at h; simp at h
  | some l9 =>
  rw [h9] at h
  simp only [Option.some_bind] at h
  have e1 := takeHexN_length 8 l l1 h1
  have e2 := expectDash_length l1 l2 h2
  have e3 := takeHexN_length 4 l2 l3 h3
  have e4 := expectDash_length l3 l4 h4
  have e5 := takeHexN_length 4 l4 l5 h5
  have e6 := expectDash_length l5 l6 h6
  have e7 := takeHexN_length 4 l6 l7 h7
  have e8 := expectDash_length l7 l8 h8
  have e9 := takeHexN_length 12 l8 l9 h9
  have e10 := checkTrailingBoundary_length l9 r h
  omega

/-- The replacement token for a UUID. -/
def uuidToken : List Char := "<UUID>".data

/-- The scan of `replace_uuids` (`tests/golden_helper.rs`): at each position
that sits on a `\b` boundary (the previous character is not a word
character), a UUID match is replaced by `<UUID>` and scanning resumes after
it; `prev` records whether the previous character was a word character. -/
def replaceUuidsAux (prev : Bool) (l : List Char) : List Char :=
  match l with
  | [] => []
  | c :: cs =>
    if prev then c :: replaceUuidsAux (isWordChar c) cs
    else
      match h : matchUuidAt (c :: cs) with
      | some rest => uuidToken ++ replaceUuidsAux true rest
      | none => c :: replaceUuidsAux (isWordChar c) cs
termination_by l.length
decreasing_by
  · simp only [List.length_cons]
    omega
  · have := matchUuidAt_length _ _ h
    simp only [List.length_cons] at this ⊢
    omega
  · simp only [List.length_cons]
    omega

/-- `replace_uuids` from `tests/golden_helper.rs`. -/
def replace_uuids (s : String) : String :=
  String.mk (replaceUuidsAux false s.data)

/-- A `[a-zA-Z0-9_/.-]` character of the Unix path pattern. -/
def isUnixPathChar (c : Char) : Bool :=
  c.isAlphanum || c = '_' || c = '/' || c = '.' || c = '-'

/-- A `[a-zA-Z0-9_\\.-]` character of the Windows path pattern. -/
def isWinPathChar (c : Char) : Bool :=
  c.isAlphanum || c = '_' || c = '\\' || c = '.' || c = '-'

/-- The replacement token for a path. -/
def pathToken : List Char := "<PATH>".data

/-- The Unix branch of `replace_absolute_paths`
(`tests/golden_helper.rs`, pattern `/[a-zA-Z0-9_/.-]+`): a `/` followed by at
least one path character is replaced, together with the maximal run of path
characters, by `<PATH>`. -/
def replaceUnixPathsAux : List Char → List Char
  | [] => []
  | c :: cs =>
    if c = '/' then
      match cs with
      | [] => [c]
      | d :: ds =>
        if isUnixPathChar d then
          pathToken ++ replaceUnixPathsAux ((d :: ds).dropWhile isUnixPathChar)
        else c :: replaceUnixPathsAux (d :: ds)
    else c :: replaceUnixPathsAux cs
termination_by l => l.length
decreasing_by
  · refine Nat.lt_of_le_of_lt
      (List.Sublist.length_le (List.dropWhile_sublist isUnixPathChar)) ?_
    simp only [List.length_cons]
    omega
  · simp only [List.length_cons]
    omega
  · simp only [List.length_cons]
    omega

/-- The Windows branch of `replace_absolute_paths`
(`tests/golden_helper.rs`, pattern `[A-Z]:\\[a-zA-Z0-9_\\.-]+`). -/
def replaceWinPathsAux : List Char → List Char
  | a :: b :: c :: d :: rest =>
    if a.isUpper && b = ':' && c = '\\' && isWinPathChar d then
      pathToken ++ replaceWinPathsAux ((d :: rest).dropWhile isWinPathChar)
    else a :: replaceWinPathsAux (b :: c :: d :: rest)
  | l => l
termination_by l => l.length
decreasing_by
  · refine Nat.lt_of_le_of_lt
      (List.Sublist.length_le (List.dropWhile_sublist isWinPathChar)) ?_
    simp only [List.length_cons]
    omega
  · simp only [List.length_cons]
    omega

/-- `replace_absolute_paths` from `tests/golden_helper.rs`: Unix paths first,
then Windows paths on the result. -/
def replace_absolute_paths (s : String) : String :=
  String.mk (replaceWinPathsAux (replaceUnixPathsAux s.data))

/-- The per-line transformation of `normalize_output`
(`tests/golden_helper.rs`): trim trailing whitespace, map any line carrying a
`Generated at:` or `Last modified:` timestamp to the fixed
`// Generated at: <TIMESTAMP>` line, else normalize UUIDs and absolute
paths. -/
def normalizeLine (line : String) : String :=
  let l := String.mk (trimEndChars line.data)
  if rustContains l "Generated at:" || rustContains l "Last modified:" then
    "// Generated at: <TIMESTAMP>"
  else replace_absolute_paths (replace_uuids l)

/-- Rust `[&str]::join(sep)`. -/
def joinSep (sep : String) : List String → String
  | [] => ""
  | [s] => s
  | s :: t1 :: t2 => s ++ sep ++ joinSep sep (t1 :: t2)

/-- `normalize_output` from `tests/golden_helper.rs`: split into lines,
normalize each, re-join with `\n`. -/
def normalize_output (content : String) : String :=
  joinSep "\n" ((rustLines content).map normalizeLine)

/-- Modelled from the spec: the generation configuration (`config`, missing
from the sources); only the keymap name reaches the emitted artifact. -/
structure Config where
  keymap_name : String
deriving DecidableEq

/-- Modelled from the spec: resolving the logical position of the key with a
given layout index through the mapping table (§4.2). -/
def VisualLayoutMapping.position_for (m : VisualLayoutMapping) (idx : Nat) :
    Option Position :=
  (m.table.find? (fun e => decide (e.2 = idx))).map (fun e => e.1)

/-- The keycode stored at `p` in a layer, or the transparent marker when no
key is defined there (§4.4). -/
def keycodeAt (layer : Layer) (p : Position) : String :=
  match layer.keys.find? (fun k => decide (k.position = p)) with
  | some k => k.keycode
  | none => "KC_TRNS"

/-- Insertion into a `≤`-sorted list of layout indices. -/
def insertLe (a : Nat) : List Nat → List Nat
  | [] => [a]
  | b :: t => if a ≤ b then a :: b :: t else b :: insertLe a t

/-- Insertion sort of layout indices (the generation order of §4.4). -/
def sortLe : List Nat → List Nat
  | [] => []
  | a :: t => insertLe a (sortLe t)

/-- Modelled from the spec: one emitted keymap line for a layer — per-key
codes in `layout_index` order, transparent where no key resolves (§4.4). -/
def layerLine (m : VisualLayoutMapping) (g : KeyboardGeometry)
    (layer : Layer) : String :=
  joinSep ", " ((sortLe (g.keys.map (fun k => k.layout_index))).map
    (fun idx =>
      match m.position_for idx with
      | some p => keycodeAt layer p
      | none => "KC_TRNS"))

/-- Modelled from the spec: the Generator's firmware artifact
(`firmware::FirmwareGenerator`, missing from the sources) as its emitted
lines: the timestamp header — the explicitly-excluded field, the only place
the timestamp occurs — then a configuration header and one keymap line per
layer; a pure function of Layout, Geometry, Mapping and configuration
(§4.4). -/
def generatedLines (layout : Layout) (g : KeyboardGeometry)
    (m : VisualLayoutMapping) (cfg : Config) (ts : String) : List String :=
  ("// Generated at: " ++ ts) ::
    ("// Keymap: " ++ cfg.keymap_name) ::
    layout.layers.map (fun layer => layerLine m g layer)

/-- Modelled from the spec: the generated firmware artifact text (§4.4). -/
def generate (layout : Layout) (g : KeyboardGeometry)
    (m : VisualLayoutMapping) (cfg : Config) (ts : String) : String :=
  joinSep "\n" (generatedLines layout g m cfg ts)

theorem splitOnNl_ne_nil : ∀ l : List Char, splitOnNl l ≠ [] := by
  intro l
  cases l with
  | nil => simp [splitOnNl]
  | cons c cs =>
    simp only [splitOnNl]
    by_cases hc : c = '\n'
    · simp [hc]
    · rw [if_neg hc]
      cases splitOnNl cs <;> simp [consHead]

theorem splitOnNl_append (xs ys : List Char) (hx : ∀ c ∈ xs, ¬ c = '\n') :
    splitOnNl (xs ++ '\n' :: ys) = xs :: splitOnNl ys := by
  induction xs with
  | nil => simp [splitOnNl]
  | cons c cs ih =>
    have hc : ¬ c = '\n' := hx c (List.mem_cons_self c cs)
    have ih' := ih (fun d hd => hx d (List.mem_cons_of_mem c hd))
    rw [List.cons_append]
    simp only [splitOnNl, if_neg hc, ih', consHead]

theorem stripCr_append (xs : List Char) (y : Char) (ys : List Char) :
    stripCr (xs ++ y :: ys) = xs ++ stripCr (y :: ys) := by
  induction xs with
  | nil => rfl
  | cons x xs ih =>
    cases xs with
    | nil => rfl
    | cons x2 xs2 =>
      show stripCr (x :: (x2 :: xs2 ++ y :: ys)) = _
      have hne : x2 :: xs2 ++ y :: ys = x2 :: (xs2 ++ y :: ys) := rfl
      rw [hne]
      show x :: stripCr (x2 :: (xs2 ++ y :: ys)) = _
      rw [show x2 :: (xs2 ++ y :: ys) = (x2 :: xs2) ++ y :: ys from rfl, ih]
      rfl

theorem trimEnd_append_nonws (xs ys : List Char) (c : Char)
    (hlast : xs.getLast? = some c) (hws : c.isWhitespace = false) :
    trimEndChars (xs ++ ys) = xs ++ trimEndChars ys := by
  unfold trimEndChars
  rw [List.reverse_append, List.dropWhile_append]
  have hxrev : xs.reverse.head? = some c := by
    rw [List.head?_reverse]
    exact hlast
  by_cases hE :
      (List.dropWhile Char.isWhitespace ys.reverse).isEmpty = true
  · rw [if_pos hE]
    have hxdrop :
        List.dropWhile Char.isWhitespace xs.reverse = xs.reverse := by
      cases hx : xs.reverse with
      | nil => rfl
      | cons a t =>
        rw [hx] at hxrev
        have ha : a = c := by
          injection hxrev
        rw [List.dropWhile_cons, ha, hws]
        simp
    have hysdrop : List.dropWhile Char.isWhitespace ys.reverse = [] := by
      cases hY : List.dropWhile Char.isWhitespace ys.reverse with
      | nil => rfl
      | cons b bs =>
        rw [hY] at hE
        simp at hE
    rw [hxdrop, List.reverse_reverse, hysdrop]
    simp
  · rw [if_neg hE]
    rw [List.reverse_append, List.reverse_reverse]

theorem dropLastIf_cons (x : List Char) (ps : List (List Char))
    (hps : ps ≠ []) :
    (if (x :: ps).getLast? = some [] then (x :: ps).dropLast else x :: ps) =
      x :: (if ps.getLast? = some [] then ps.dropLast else ps) := by
  cases ps with
  | nil => exact absurd rfl hps
  | cons a as =>
    rw [List.getLast?_cons_cons]
    by_cases h : (a :: as).getLast? = some []
    · rw [if_pos h, if_pos h,
        List.dropLast_cons_of_ne_nil (List.cons_ne_nil a as)]
    · rw [if_neg h, if_neg h]

theorem normalizeLine_timestamp (t : String) :
    normalizeLine (String.mk (stripCr (("// Generated at: " ++ t).data))) =
      "// Generated at: <TIMESTAMP>" := by
  have hdecomp : ("// Generated at: " ++ t).data =
      ("// Generated at:" : String).data ++ ' ' :: t.data := by
    have h1 : ("// Generated at: " : String).data =
        ("// Generated at:" : String).data ++ [' '] := by decide
    rw [String.data_append, h1, List.append_assoc]
    rfl
  have hstrip : stripCr (("// Generated at: " ++ t).data) =
      ("// Generated at:" : String).data ++ stripCr (' ' :: t.data) := by
    rw [hdecomp, stripCr_append]
  have htrim :
      trimEndChars
          (("// Generated at:" : String).data ++ stripCr (' ' :: t.data)) =
        ("// Generated at:" : String).data ++
          trimEndChars (stripCr (' ' :: t.data)) := by
    refine trimEnd_append_nonws _ _ ':' ?_ ?_ <;> decide
  have hcont :
      rustContains
          (String.mk (trimEndChars
            (String.mk (stripCr (("// Generated at: " ++ t).data))).data))
          "Generated at:" = true := by
    unfold rustContains
    apply decide_eq_true
    show ("Generated at:" : String).data <:+:
      trimEndChars (stripCr (("// Generated at: " ++ t).data))
    rw [hstrip, htrim]
    have hpre : ("Generated at:" : String).data <:+:
        ("// Generated at:" : String).data := by decide
    rcases hpre with ⟨u, v, huv⟩
    exact ⟨u, v ++ trimEndChars (stripCr (' ' :: t.data)), by
      rw [← huv]
      simp⟩
  simp only [normalizeLine, hcont, Bool.true_or, if_true]

/-- C2: generation is deterministic up to the excluded timestamp: for any two
runs of the generator on identical Layout, Geometry, Mapping and
configuration — differing only in the timestamp written into the excluded
`Generated at:` header line — the outputs are byte-identical after
`normalize_output`, the repository's own timestamp-excluding normalization;
in particular generating twice from the same inputs yields identical
normalized output. -/
theorem C2_generation_deterministic_up_to_timestamp :
    ∀ (layout : Layout) (g : KeyboardGeometry) (m : VisualLayoutMapping)
      (cfg : Config) (t1 t2 : String),
      (∀ c ∈ t1.data, ¬ c = '\n') →
      (∀ c ∈ t2.data, ¬ c = '\n') →
      normalize_output (generate layout g m cfg t1) =
        normalize_output (generate layout g m cfg t2) := by
  intro layout g m cfg t1 t2 h1 h2
  have hlit : ∀ c ∈ ("// Generated at: " : String).data, ¬ c = '\n' := by
    decide
  set rest := joinSep "\n" (("// Keymap: " ++ cfg.keymap_name) ::
    layout.layers.map (fun ly => layerLine m g ly)) with hrest
  set PS := splitOnNl rest.data with hPSdef
  set TAIL := (if PS.getLast? = some [] then PS.dropLast else PS).map
    (fun l => String.mk (stripCr l)) with hTAIL
  have key : ∀ t : String, (∀ c ∈ t.data, ¬ c = '\n') →
      rustLines (generate layout g m cfg t) =
        String.mk (stripCr (("// Generated at: " ++ t).data)) :: TAIL := by
    intro t ht
    have hjoin : generate layout g m cfg t =
        ("// Generated at: " ++ t) ++ "\n" ++ rest := rfl
    have hdata : (generate layout g m cfg t).data =
        ("// Generated at: " ++ t).data ++ '\n' :: rest.data := by
      rw [hjoin, String.data_append, String.data_append,
        show ("\n" : String).data = ['\n'] from by decide,
        List.append_assoc]
      rfl
    have hsplit : splitOnNl ((generate layout g m cfg t).data) =
        ("// Generated at: " ++ t).data :: PS := by
      rw [hdata, hPSdef]
      refine splitOnNl_append _ _ ?_
      intro c hc
      rw [String.data_append] at hc
      rcases List.mem_append.mp hc with hcl | hcr
      · exact hlit c hcl
      · exact ht c hcr
    simp only [rustLines]
    rw [hsplit,
      dropLastIf_cons _ _ (by rw [hPSdef]; exact splitOnNl_ne_nil _),
      List.map_cons]
  unfold normalize_output
  rw [key t1 h1, key t2 h2]
  simp only [List.map_cons]
  rw [normalizeLine_timestamp t1, normalizeLine_timestamp t2]

/-- C2 witness: the determinism theorem applied to two concrete generation
runs differing only in the timestamp. -/
theorem C2_generation_deterministic_witness :
    normalize_output (generate layoutC3 dupGeometry emptyMapping
        ⟨"default"⟩ "2025-01-16T10:30:45Z") =
      normalize_output (generate layoutC3 dupGeometry emptyMapping
        ⟨"default"⟩ "2026-02-02T00:00:00Z") :=
  C2_generation_deterministic_up_to_timestamp layoutC3 dupGeometry
    emptyMapping ⟨"default"⟩ "2025-01-16T10:30:45Z" "2026-02-02T00:00:00Z"
    (by decide) (by decide)

end KbCfg
